import Mathlib

/-!
Verification of the retrieval and caching engine of the Constructure AI
"Project Brain" backend.  The Python sources are shallowly embedded:
strings become `List Char`, dictionaries become association lists with
in-place update, external collaborators (PDF extraction, embedding,
generation, `json.loads`, `hashlib.md5`) become function parameters, and
code that can raise becomes `Except`-valued.  Each claim about the spec
is settled by a theorem about these definitions.
-/

/-- Python strings are modelled as lists of characters. -/
abbrev Str := List Char

/-- The whitespace test used by Python's `str.split()` / `str.strip()`
(restricted to the ASCII whitespace characters). -/
def pyIsSpace (c : Char) : Bool :=
  c = ' ' || c = '\t' || c = '\n' || c = '\r' || c = '\x0b' || c = '\x0c'

/-- Python `str.lower()` (ASCII case folding, via `Char.toLower`). -/
def lowerStr (l : Str) : Str := l.map Char.toLower

/-- Python `str.lstrip()`. -/
def lstrip (l : Str) : Str := l.dropWhile pyIsSpace

/-- Python `str.rstrip()`. -/
def rstrip (l : Str) : Str := (l.reverse.dropWhile pyIsSpace).reverse

/-- Python `str.strip()`: remove leading and trailing whitespace. -/
def pyStrip (l : Str) : Str := lstrip (rstrip l)

/-- Python slice `text[start : start + len]`. -/
def pySlice (l : Str) (start len : Nat) : Str := (l.drop start).take len

/-! ### Elementary lemmas about stripping -/

theorem dropWhile_append_of_forall {p : Char → Bool} :
    ∀ (w l : Str), (∀ c ∈ w, p c = true) → List.dropWhile p (w ++ l) = List.dropWhile p l := by
  intro w
  induction w with
  | nil => intro l _; rfl
  | cons c w ih =>
      intro l h
      have hc : p c = true := h c (by simp)
      simp [List.dropWhile, hc]
      exact ih l (fun d hd => h d (by simp [hd]))

theorem head?_dropWhile_false {p : Char → Bool} :
    ∀ (l : Str) (a : Char), (List.dropWhile p l).head? = some a → p a = false := by
  intro l
  induction l with
  | nil => intro a h; simp [List.dropWhile] at h
  | cons c t ih =>
      intro a h
      cases hc : p c with
      | true =>
          simp [List.dropWhile, hc] at h
          exact ih a h
      | false =>
          simp [List.dropWhile, hc] at h
          subst h
          exact hc

theorem dropWhile_idem {p : Char → Bool} (l : Str) :
    List.dropWhile p (List.dropWhile p l) = List.dropWhile p l := by
  cases h : List.dropWhile p l with
  | nil => rfl
  | cons a t =>
      have ha : p a = false := head?_dropWhile_false l a (by simp [h])
      simp [List.dropWhile, ha]

theorem lstrip_append_of_space (w l : Str) (hw : ∀ c ∈ w, pyIsSpace c = true) :
    lstrip (w ++ l) = lstrip l :=
  dropWhile_append_of_forall w l hw

theorem rstrip_append_of_space (l w : Str) (hw : ∀ c ∈ w, pyIsSpace c = true) :
    rstrip (l ++ w) = rstrip l := by
  unfold rstrip
  rw [List.reverse_append, dropWhile_append_of_forall w.reverse l.reverse]
  intro c hc
  exact hw c (List.mem_reverse.mp hc)

theorem lstrip_idem (l : Str) : lstrip (lstrip l) = lstrip l :=
  dropWhile_idem l

theorem rstrip_idem (l : Str) : rstrip (rstrip l) = rstrip l := by
  unfold rstrip
  rw [List.reverse_reverse, dropWhile_idem]

theorem rstrip_append_left (w q : Str) :
    rstrip (w ++ q) = if rstrip q = [] then rstrip w else w ++ rstrip q := by
  unfold rstrip
  rw [List.reverse_append, List.dropWhile_append]
  by_cases hq : List.dropWhile pyIsSpace q.reverse = []
  · simp [hq]
  · simp [hq, List.isEmpty_iff, List.reverse_eq_nil_iff]

/-- Stripping ignores whitespace padding on both sides. -/
theorem pyStrip_pad (w1 q w2 : Str)
    (h1 : ∀ c ∈ w1, pyIsSpace c = true) (h2 : ∀ c ∈ w2, pyIsSpace c = true) :
    pyStrip (w1 ++ q ++ w2) = pyStrip q := by
  unfold pyStrip
  rw [show w1 ++ q ++ w2 = (w1 ++ q) ++ w2 by simp, rstrip_append_of_space _ _ h2,
    rstrip_append_left]
  by_cases hq : rstrip q = []
  · rw [if_pos hq, hq]
    have hw1 : rstrip w1 = [] := by
      unfold rstrip
      rw [List.dropWhile_eq_nil_iff.mpr (by intro c hc; exact h1 c (List.mem_reverse.mp hc))]
      rfl
    rw [hw1]
  · rw [if_neg hq, lstrip_append_of_space _ _ h1]

/-- `pyStrip` is idempotent: a stripped string has no leading or trailing
whitespace left to remove. -/
theorem pyStrip_idem (l : Str) : pyStrip (pyStrip l) = pyStrip l := by
  unfold pyStrip
  have hy : List.dropWhile pyIsSpace (rstrip l).reverse = (rstrip l).reverse := by
    unfold rstrip
    rw [List.reverse_reverse]
    exact dropWhile_idem _
  set y := rstrip l with hydef
  show lstrip (rstrip (lstrip y)) = lstrip y
  unfold lstrip
  cases hz : List.dropWhile pyIsSpace y with
  | nil => simp [rstrip]
  | cons a t =>
      have hsuf : List.dropWhile pyIsSpace y <:+ y := List.dropWhile_suffix pyIsSpace
      obtain ⟨w, hw⟩ := hsuf
      have hr : rstrip (a :: t) = a :: t := by
        unfold rstrip
        cases hrev : (a :: t).reverse with
        | nil => simp at hrev
        | cons c rest =>
            have hyrev : y.reverse = c :: (rest ++ w.reverse) := by
              rw [← hw, hz, List.reverse_append, hrev]
              simp
            have hc : pyIsSpace c = false := by
              apply head?_dropWhile_false y.reverse c
              rw [hy, hyrev]
              rfl
            rw [List.dropWhile_cons_of_neg (by simp [hc]), ← hrev, List.reverse_reverse]
      rw [← hz, hz, hr, ← hz, dropWhile_idem]

/-! ### The chunker (`DocumentProcessor._chunk_text` in
`document_processor_simple.py`)

```python
while start < text_length:
    end = start + chunk_size
    chunk = text[start:end]
    chunks.append(chunk.strip())
    start += (chunk_size - overlap)
```

The loop terminates exactly when `overlap < chunk_size`, so the embedding
carries that hypothesis. -/

def chunk_text_loop (text : Str) (C O : Nat) (h : O < C) (start : Nat) : List Str :=
  if hlt : start < text.length then
    pyStrip (pySlice text start C) :: chunk_text_loop text C O h (start + (C - O))
  else
    []
termination_by text.length - start
decreasing_by omega

/-- `DocumentProcessor._chunk_text(text, chunk_size=C, overlap=O)`. -/
def chunk_text (text : Str) (C O : Nat) (h : O < C) : List Str :=
  chunk_text_loop text C O h 0

/-- Ceiling division on naturals. -/
def ceilDivNat (a b : Nat) : Nat := (a + b - 1) / b

theorem ceilDivNat_zero (b : Nat) : ceilDivNat 0 b = 0 := by
  unfold ceilDivNat
  cases b with
  | zero => rfl
  | succ n => exact Nat.div_eq_of_lt (by omega)

theorem ceilDivNat_step (a b : Nat) (hb : 0 < b) (ha : 0 < a) :
    ceilDivNat a b = ceilDivNat (a - b) b + 1 := by
  by_cases hab : a ≤ b
  · have h1 : a - b = 0 := by omega
    rw [h1, ceilDivNat_zero]
    unfold ceilDivNat
    exact Nat.div_eq_of_lt_le (by omega) (by omega)
  · have h2 : a + b - 1 = (a - b + b - 1) + b := by omega
    unfold ceilDivNat
    rw [h2, Nat.add_div_right _ hb]

/-- Closed form of the chunking loop: starting at `start`, the loop emits one
stripped window per step of `C - O` characters, for
`⌈(len - start) / (C - O)⌉` steps. -/
theorem chunk_text_loop_eq (text : Str) (C O : Nat) (h : O < C) :
    ∀ n start, text.length - start = n →
    chunk_text_loop text C O h start =
      (List.range (ceilDivNat (text.length - start) (C - O))).map
        (fun i => pyStrip (pySlice text (start + i * (C - O)) C)) := by
  intro n
  induction n using Nat.strong_induction_on with
  | _ n ih =>
      intro start hn
      rw [chunk_text_loop]
      by_cases hlt : start < text.length
      · rw [dif_pos hlt]
        have hstep : 0 < C - O := by omega
        have hrec := ih (text.length - (start + (C - O))) (by omega) (start + (C - O)) rfl
        rw [hrec]
        have hsub : text.length - (start + (C - O)) = (text.length - start) - (C - O) := by
          omega
        have hpos : 0 < text.length - start := by omega
        have hstepeq := ceilDivNat_step (text.length - start) (C - O) hstep hpos
        rw [hsub, hstepeq, List.range_succ_eq_map, List.map_cons, List.map_map]
        congr 1
        · simp
        · apply List.map_congr_left
          intro i _
          simp only [Function.comp]
          congr 1
          rw [Nat.succ_mul]
          ring
      · rw [dif_neg hlt]
        have h0 : text.length - start = 0 := by omega
        rw [h0, ceilDivNat_zero]
        rfl

/-- Closed form of `_chunk_text`. -/
theorem chunk_text_eq (text : Str) (C O : Nat) (h : O < C) :
    chunk_text text C O h =
      (List.range (ceilDivNat text.length (C - O))).map
        (fun i => pyStrip (pySlice text (i * (C - O)) C)) := by
  unfold chunk_text
  rw [chunk_text_loop_eq text C O h (text.length - 0) 0 rfl]
  simp

/-- The number of chunks produced is `⌈len / (C - O)⌉`. -/
theorem chunk_text_length (text : Str) (C O : Nat) (h : O < C) :
    (chunk_text text C O h).length = ceilDivNat text.length (C - O) := by
  rw [chunk_text_eq]
  simp


/-! ### Split, substring count, and keyword search
(`DocumentProcessor.search_documents` in `document_processor_simple.py`) -/

/-- Helper for `pyWords`: scan characters accumulating the current word. -/
def wordsGo : Str → Str → List Str
  | [], cur => if cur = [] then [] else [cur.reverse]
  | c :: rest, cur =>
      if pyIsSpace c then
        if cur = [] then wordsGo rest [] else cur.reverse :: wordsGo rest []
      else wordsGo rest (c :: cur)

/-- Python `str.split()` with no argument: split on runs of whitespace,
discarding empty words. -/
def pyWords (l : Str) : List Str := wordsGo l []

/-- Fuel-driven helper for `pyCount`. -/
def pyCountFuel : Nat → Str → Str → Nat
  | 0, _, _ => 0
  | fuel + 1, pat, s =>
      match s with
      | [] => 0
      | c :: rest =>
          if pat.isPrefixOf (c :: rest) then
            1 + pyCountFuel fuel pat ((c :: rest).drop pat.length)
          else
            pyCountFuel fuel pat rest

/-- Python `s.count(pat)`: number of non-overlapping occurrences of `pat`
in `s` (the search code only counts nonempty words produced by `split()`). -/
def pyCount (pat s : Str) : Nat := pyCountFuel s.length pat s

/-- Python `pat in s` on strings: contiguous substring test. -/
def isSubstr (pat : Str) : Str → Bool
  | [] => pat.isEmpty
  | c :: rest => pat.isPrefixOf (c :: rest) || isSubstr pat rest

/-- The relevance score of one chunk: for each query word contained in the
lower-cased content, add its occurrence count (mirrors the loop
`for word in query_lower.split(): if word in content_lower: score += content_lower.count(word)`). -/
def chunkScore (qwords : List Str) (contentLower : Str) : Nat :=
  (qwords.map (fun w => if isSubstr w contentLower then pyCount w contentLower else 0)).sum

/-- A chunk record as built by `_extract_and_chunk_pdf`. -/
structure SChunk where
  id : Str
  document_id : Str
  filename : Str
  page_number : Nat
  chunk_index : Nat
  content : Str
deriving DecidableEq

/-- The chunks scoring positively, in store (insertion) order, paired with
their relevance scores. -/
def search_candidates (chunks : List SChunk) (query : Str) : List (SChunk × Nat) :=
  chunks.filterMap (fun c =>
    if 0 < chunkScore (pyWords (lowerStr query)) (lowerStr c.content) then
      some (c, chunkScore (pyWords (lowerStr query)) (lowerStr c.content))
    else none)

/-- `DocumentProcessor.search_documents`: keep positively scoring chunks,
sort stably by descending relevance (Python `list.sort` is stable), return
the first `top_k` (default 5). -/
def search_documents (chunks : List SChunk) (query : Str) (top_k : Nat) : List (SChunk × Nat) :=
  (List.mergeSort (search_candidates chunks query) (fun a b => decide (b.2 ≤ a.2))).take top_k

/-! ### Document ingestion state (`document_processor_simple.py`) -/

/-- Python `dict` assignment `m[k] = v`: replace in place, or append. -/
def dictSet {V : Type _} (m : List (Str × V)) (k : Str) (v : V) : List (Str × V) :=
  match m with
  | [] => [(k, v)]
  | (k', v') :: rest => if k' = k then (k, v) :: rest else (k', v') :: dictSet rest k v

/-- Python `dict` lookup `m[k]` (as an `Option`). -/
def dictGet {V : Type _} (m : List (Str × V)) (k : Str) : Option V :=
  match m with
  | [] => none
  | (k', v) :: rest => if k' = k then some v else dictGet rest k

theorem dictSet_dictSet {V : Type _} (m : List (Str × V)) (k : Str) (v v' : V) :
    dictSet (dictSet m k v) k v' = dictSet m k v' := by
  induction m with
  | nil => simp [dictSet]
  | cons p rest ih =>
      obtain ⟨k', w⟩ := p
      by_cases hk : k' = k
      · simp [dictSet, hk]
      · simp [dictSet, hk, ih]

theorem dictGet_dictSet {V : Type _} (m : List (Str × V)) (k : Str) (v : V) :
    dictGet (dictSet m k v) k = some v := by
  induction m with
  | nil => simp [dictSet, dictGet]
  | cons p rest ih =>
      obtain ⟨k', w⟩ := p
      by_cases hk : k' = k
      · simp [dictSet, hk, dictGet]
      · simp [dictSet, hk, dictGet, ih]

/-- Decimal rendering of a natural number, as used in the id f-string. -/
def natStr (n : Nat) : Str := (toString n).toList

/-- The per-page part of `_extract_and_chunk_pdf`: pages whose text is
whitespace-only are skipped (`if text.strip():`), otherwise the page text is
chunked with `chunk_size=1000, overlap=200` and chunk records are built with
ids `f"{doc_id}_page{page_num}_chunk{chunk_idx}"`. -/
def pageChunks (docId fname : Str) (pageNum : Nat) (text : Str) : List SChunk :=
  if pyStrip text = [] then []
  else
    (chunk_text text 1000 200 (by decide)).enum.map (fun p =>
      { id := docId ++ "_page".toList ++ natStr pageNum ++ "_chunk".toList ++ natStr p.1
        document_id := docId
        filename := fname
        page_number := pageNum
        chunk_index := p.1
        content := p.2 })

/-- `_extract_and_chunk_pdf`, with the external PDF text extraction already
performed: `pages` is the ordered list of page texts, numbered from 1. -/
def extract_and_chunk_pdf (pages : List Str) (docId fname : Str) : List SChunk :=
  (pages.enum.map (fun p => pageChunks docId fname (p.1 + 1) p.2)).flatten

/-- In-memory record held in `self.documents[doc_id]`. -/
structure DocRec where
  filename : Str
  path : Str
  chunks : List SChunk
deriving DecidableEq

/-- Metadata record held in `self.documents_metadata[doc_id]`. -/
structure MetaRec where
  filename : Str
  path : Str
  chunks_count : Nat
deriving DecidableEq

/-- The mutable state of `DocumentProcessor` (simplified version). -/
structure DPState where
  documents : List (Str × DocRec)
  chunks : List SChunk
  documents_metadata : List (Str × MetaRec)
deriving DecidableEq

/-- The value returned by `process_document`. -/
structure IngestResult where
  document_id : Str
  filename : Str
  chunks_count : Nat
deriving DecidableEq

def uploadDirPath : Str := "./data/uploads/".toList

/-- `DocumentProcessor.process_document`.  External collaborators are
parameters: `extractPages` is the pypdf text extraction (page texts of the
uploaded bytes) and `md5hex` is `hashlib.md5(...).hexdigest()`. -/
def process_document {β : Type _} (extractPages : β → List Str) (md5hex : Str → Str)
    (st : DPState) (filename : Str) (file : β) : DPState × IngestResult :=
  let file_path := uploadDirPath ++ filename
  let doc_id := md5hex filename
  let text_chunks := extract_and_chunk_pdf (extractPages file) doc_id filename
  ({ documents := dictSet st.documents doc_id ⟨filename, file_path, text_chunks⟩
     chunks := st.chunks ++ text_chunks
     documents_metadata :=
       dictSet st.documents_metadata doc_id ⟨filename, file_path, text_chunks.length⟩ },
   { document_id := doc_id, filename := filename, chunks_count := text_chunks.length })

/-! ### JSON values (the shapes produced by the external `json` library) -/

/-- A Python/JSON value, as returned by `json.loads`. -/
inductive PJson where
  | arr (l : List PJson)
  | obj (kvs : List (Str × PJson))
  | str (s : Str)
  | num (n : Int)
  | bool (b : Bool)
  | null

/-! ### Query fingerprint (`get_query_hash` in `main.py`) -/

/-- A scalar filter value, enough for `json.dumps` of a filter dict. -/
inductive JVal where
  | s (v : Str)
  | n (v : Int)
  | b (v : Bool)
  | null
deriving DecidableEq

/-- `json.dumps` of a scalar value. -/
def dumpJVal : JVal → Str
  | .s v => '"' :: v ++ ['"']
  | .n v => (toString v).toList
  | .b true => "true".toList
  | .b false => "false".toList
  | .null => "null".toList

/-- `sep.join(items)`. -/
def joinSep (sep : Str) : List Str → Str
  | [] => []
  | [x] => x
  | x :: y :: rest => x ++ sep ++ joinSep sep (y :: rest)

/-- Lexicographic `≤` on strings by code point, as used by Python's
string comparison (and hence by `json.dumps(..., sort_keys=True)`). -/
def strLeB : Str → Str → Bool
  | [], _ => true
  | _ :: _, [] => false
  | a :: as, b :: bs => if a < b then true else if b < a then false else strLeB as bs

/-- The filter items in sorted key order (`sort_keys=True`). -/
def sortFilterItems (fs : List (Str × JVal)) : List (Str × JVal) :=
  List.mergeSort fs (fun a b => strLeB a.1 b.1)

/-- `json.dumps(filters, sort_keys=True)` for a dict of scalar values. -/
def dumpFilters (fs : List (Str × JVal)) : Str :=
  '\x7b' ::
    joinSep ", ".toList
      ((sortFilterItems fs).map
        (fun kv => '"' :: kv.1 ++ '"' :: ':' :: ' ' :: dumpJVal kv.2)) ++ ['\x7d']

/-- `get_query_hash(query, filters)` from `main.py`: lower-case and strip the
query, append the canonical serialization of the filters when they are truthy
(`if filters:` is false for `None` and for an empty dict), then hash.  The
external `hashlib.md5(...).hexdigest()` is the parameter `md5hex`. -/
def get_query_hash (md5hex : Str → Str) (query : Str)
    (filters : Option (List (Str × JVal))) : Str :=
  let cache_key := pyStrip (lowerStr query)
  let cache_key :=
    match filters with
    | none => cache_key
    | some fs => if fs = [] then cache_key else cache_key ++ dumpFilters fs
  md5hex cache_key

/-! ### Query/result cache (`main.py`) -/

/-- A deduplicated source citation, as built by `_format_sources`. -/
structure Source where
  filename : Str
  page : Nat
  text_preview : Str
deriving DecidableEq

/-- One entry of `query_cache`; timestamps are modelled as integer seconds
(the code stores `datetime.now().isoformat()` and parses it back). -/
structure CacheEntry where
  answer : Str
  sources : List Source
  confidence : Option Str
  structured_data : Option PJson
  timestamp : Int

def CACHE_TTL_SECONDS : Int := 3600

/-- `is_cache_valid`: the entry is fresh iff `now - created_at < TTL`. -/
def is_cache_valid (now ts : Int) : Bool := decide (now - ts < CACHE_TTL_SECONDS)

/-- The cache-hit test performed by the `chat` handler:
`query_hash in query_cache and is_cache_valid(entry["timestamp"])`. -/
def query_cache_get (cache : List (Str × CacheEntry)) (k : Str) (now : Int) :
    Option CacheEntry :=
  match dictGet cache k with
  | some e => if is_cache_valid now e.timestamp then some e else none
  | none => none

/-- The read path of the `chat` handler, together with the cache it leaves
behind: lookups never mutate the cache (no eviction on read). -/
def chat_cache_lookup (cache : List (Str × CacheEntry)) (k : Str) (now : Int) :
    Option CacheEntry × List (Str × CacheEntry) :=
  (query_cache_get cache k now, cache)

/-- `query_cache[query_hash] = {...}`: unconditional overwrite. -/
def query_cache_put (cache : List (Str × CacheEntry)) (k : Str) (e : CacheEntry) :
    List (Str × CacheEntry) :=
  dictSet cache k e

/-- `query_cache.clear()` from the `/cache/clear` route. -/
def query_cache_clear (_cache : List (Str × CacheEntry)) : List (Str × CacheEntry) := []

/-! ### RAG pipeline (`rag_pipeline.py`) -/

/-- A conversation turn. -/
structure Turn where
  role : Str
  content : Str
deriving DecidableEq

/-- A retrieved document as returned by `doc_processor.search`:
`{'text': ..., 'metadata': {'filename': ..., 'page': ...}}`. -/
structure RDoc where
  text : Str
  filename : Str
  page : Nat
deriving DecidableEq

def extraction_keywords : List Str :=
  ["door schedule", "generate a door schedule", "room summary", "list all rooms",
   "equipment list", "mep equipment"].map String.toList

/-- `RAGPipeline._is_extraction_request`. -/
def is_extraction_request (query : Str) : Bool :=
  extraction_keywords.any (fun k => isSubstr k (lowerStr query))

/-- The fixed no-grounding answer returned when retrieval is empty. -/
def no_relevant_info_msg : Str :=
  "I couldn't find any relevant information in the documents. Please make sure documents have been uploaded.".toList

/-- `RAGPipeline._build_context`. -/
def build_context (docs : List RDoc) : Str :=
  joinSep "\n\n".toList
    (docs.map (fun d => '[' :: d.filename ++ ", Page ".toList ++ natStr d.page ++ ']' :: '\n' :: d.text))

/-- The 200-character preview used by `_format_sources`. -/
def text_preview (t : Str) : Str :=
  if 200 < t.length then t.take 200 ++ "...".toList else t

/-- Loop of `RAGPipeline._format_sources`, deduplicating by `filename_page`. -/
def format_sources_go : List RDoc → List Str → List Source
  | [], _ => []
  | d :: rest, seen =>
      let key := d.filename ++ '_' :: natStr d.page
      if seen.contains key then format_sources_go rest seen
      else ⟨d.filename, d.page, text_preview d.text⟩ :: format_sources_go rest (key :: seen)

/-- `RAGPipeline._format_sources`. -/
def format_sources (docs : List RDoc) : List Source := format_sources_go docs []

/-- The dictionary returned by `RAGPipeline.process_query` (fields absent in
a given return statement are `none`). -/
structure QueryResult where
  answer : Str
  sources : List Source
  conversation_id : Str
  confidence : Option Str
  structured_data : Option PJson

/-- A Python exception escaping `process_query`. -/
inductive PyErr where
  | keyError (k : Str)
deriving DecidableEq

/-- `RAGPipeline.process_query`.  External collaborators are parameters:
`retrieve` is `doc_processor.search` (Chroma), `generate` is
`_generate_answer` (OpenAI), `handleExtraction` is
`_handle_extraction_request` (which does not touch `self.conversations`),
and `freshId` is the `uuid.uuid4()` drawn when the caller supplies no
conversation id.  Note `if not conversation_id:` treats the empty string
like `None`, and that the only writes to `self.conversations` are the
creation of a fresh id and the two appends, the latter raising `KeyError`
when the supplied id is absent. -/
def process_query (retrieve : Str → List RDoc) (generate : Str → Str → List Turn → Str)
    (handleExtraction : Str → Str → QueryResult) (freshId : Str)
    (st : List (Str × List Turn)) (query : Str) (conversation_id : Option Str) :
    Except PyErr (QueryResult × List (Str × List Turn)) :=
  let cs :=
    match conversation_id with
    | none => (freshId, dictSet st freshId [])
    | some c => if c = [] then (freshId, dictSet st freshId []) else (c, st)
  let cid := cs.1
  let st1 := cs.2
  if is_extraction_request query then
    .ok (handleExtraction query cid, st1)
  else
    let retrieved_docs := retrieve query
    if retrieved_docs = [] then
      .ok ({ answer := no_relevant_info_msg, sources := [], conversation_id := cid,
             confidence := none, structured_data := none }, st1)
    else
      let context := build_context retrieved_docs
      let history := (dictGet st1 cid).getD []
      let answer := generate query context history
      let sources := format_sources retrieved_docs
      match dictGet st1 cid with
      | none => .error (.keyError cid)
      | some turns =>
          .ok ({ answer := answer, sources := sources, conversation_id := cid,
                 confidence := none, structured_data := none },
               dictSet st1 cid (turns ++ [⟨"user".toList, query⟩, ⟨"assistant".toList, answer⟩]))

/-! ### Structured extraction parsing (`StructuredExtractor._extract_with_gpt`) -/

def extraction_keys : List Str :=
  ["data", "items", "results", "doors", "rooms", "equipment"].map String.toList

/-- The loop `for key in [...]: if key in data and isinstance(data[key], list):
return data[key]` followed by `return []`. -/
def firstListKey (kvs : List (Str × PJson)) : List Str → List PJson
  | [] => []
  | k :: ks =>
      match dictGet kvs k with
      | some (.arr l) => l
      | _ => firstListKey kvs ks

/-- The suffix of `l` starting at its first `'['`, if any. -/
def firstFromBracket : Str → Option Str
  | [] => none
  | c :: rest => if c = '[' then some (c :: rest) else firstFromBracket rest

/-- The prefix of `l` ending at its last `']'` (empty if `l` has none). -/
def truncAtLastClose (l : Str) : Str :=
  (l.reverse.dropWhile (fun c => !(c = ']'))).reverse

/-- `re.search(r'\[.*\]', text, re.DOTALL)`: the greedy leftmost match runs
from the first `'['` to the last `']'`, and exists iff some `']'` follows
the first `'['`. -/
def recoverArray (l : Str) : Option Str :=
  match firstFromBracket l with
  | none => none
  | some suf =>
      let t := truncAtLastClose suf
      if t = [] then none else some t

/-- The branch taken when `json.loads` succeeds: an array is returned, an
object is probed for the known list-valued keys, and `key in data` /
`data[key]` raise `TypeError` on the remaining shapes (for a `str`, only
when some key occurs as a substring, since `key in data` is then a
substring test and `data[key]` raises). -/
def parse_direct (j : PJson) : Except Unit PJson :=
  match j with
  | .arr l => .ok (.arr l)
  | .obj kvs => .ok (.arr (firstListKey kvs extraction_keys))
  | .str s =>
      if extraction_keys.any (fun k => isSubstr k s) then .error () else .ok (.arr [])
  | _ => .error ()

/-- The second `json.loads`, inside the `except json.JSONDecodeError:`
branch; its own failure escapes to the outer handler. -/
def okOrErr : Option PJson → Except Unit PJson
  | some j => .ok j
  | none => .error ()

/-- The `except json.JSONDecodeError:` branch: regex-recover a bracketed
substring and re-parse it, or return the empty list when there is none. -/
def recover_parse (loads : Str → Option PJson) (result_text : Str) : Except Unit PJson :=
  match recoverArray result_text with
  | some sub => okOrErr (loads sub)
  | none => .ok (.arr [])

/-- The body of the `try:` block of `_extract_with_gpt` after the generation
call, with the raising spots made explicit.  The external `json.loads` is
the parameter `loads`. -/
def extract_with_gpt_body (loads : Str → Option PJson) (result_text : Str) :
    Except Unit PJson :=
  match loads result_text with
  | some j => parse_direct j
  | none => recover_parse loads result_text

/-- `_extract_with_gpt`: the whole body is wrapped in
`except Exception: return []`. -/
def extract_with_gpt (loads : Str → Option PJson) (result_text : Str) : PJson :=
  match extract_with_gpt_body loads result_text with
  | .ok v => v
  | .error _ => .arr []

/-! ### Claim C4 — chunk count -/

/-- The chunk-count formula asserted by the spec (`ceil((L − O) / (C − O))`),
written from the spec's words for comparison with the code. -/
def specChunkCount (L C O : Nat) : Nat := ceilDivNat (L - O) (C - O)

/-- C4 counterexample: for the one-character text `"a"` with `C = 2, O = 1`
the chunker emits 1 chunk while the spec formula gives 0; and a
whitespace-only input yields one (empty) chunk from `_chunk_text`, not zero. -/
theorem chunk_count_counterexample :
    (chunk_text "a".toList 2 1 (by decide)).length = 1 ∧
    specChunkCount 1 2 1 = 0 ∧
    chunk_text " ".toList 2 1 (by decide) = [[]] := by
  refine ⟨?_, by decide, ?_⟩
  · rw [chunk_text_eq]
    decide
  · rw [chunk_text_eq]
    decide

/-- C4 (amended): with `O < C` the chunker produces exactly
`⌈L / (C − O)⌉` chunks; the empty string yields zero chunks; and in the PDF
ingestion path a whitespace-only page text yields zero chunk records because
of the `if text.strip():` guard. -/
theorem chunk_count_spec (text : Str) (C O : Nat) (h : O < C)
    (docId fname : Str) (pageNum : Nat) :
    (chunk_text text C O h).length = ceilDivNat text.length (C - O) ∧
    (text = [] → chunk_text text C O h = []) ∧
    (pyStrip text = [] → pageChunks docId fname pageNum text = []) := by
  refine ⟨chunk_text_length text C O h, ?_, ?_⟩
  · intro ht
    subst ht
    rw [chunk_text_eq]
    simp [ceilDivNat_zero]
  · intro ht
    simp [pageChunks, ht]

/-- Witness for `chunk_count_spec` at the empty text. -/
theorem chunk_count_spec_witness :
    (chunk_text ([] : Str) 2 1 (by decide)).length = ceilDivNat ([] : Str).length (2 - 1) ∧
    chunk_text ([] : Str) 2 1 (by decide) = [] ∧
    pageChunks [] [] 1 [] = [] :=
  ⟨(chunk_count_spec [] 2 1 (by decide) [] [] 1).1,
   (chunk_count_spec [] 2 1 (by decide) [] [] 1).2.1 rfl,
   (chunk_count_spec [] 2 1 (by decide) [] [] 1).2.2 rfl⟩

/-! ### Claim C10 — chunker termination and window shape -/

/-- C10 counterexample: on `"abcde"` with `C = 4, O = 3` the chunk at index 2
(`"cde"`, length 3) is shorter than `C` yet is not the final chunk, refuting
"only the final chunk possibly shorter than C". -/
theorem chunk_nonfinal_short_counterexample :
    2 + 1 < (chunk_text "abcde".toList 4 3 (by decide)).length ∧
    ((chunk_text "abcde".toList 4 3 (by decide)).getD 2 []).length < 4 := by
  rw [chunk_text_eq]
  decide

/-- C10 (amended): for every text and `O < C` the chunker terminates and
equals the explicit finite list of trimmed windows advancing by exactly
`C − O` per step; every chunk is a fixed point of stripping (no leading or
trailing whitespace); the untrimmed window at step `i` has length
`min C (L − i·(C − O))`, so any window reaching past the end of the text —
not only the final one — is clipped short, and trimming may shorten chunks
further. -/
theorem chunk_text_window_spec (text : Str) (C O : Nat) (h : O < C) :
    chunk_text text C O h =
      (List.range (ceilDivNat text.length (C - O))).map
        (fun i => pyStrip (pySlice text (i * (C - O)) C)) ∧
    (∀ c ∈ chunk_text text C O h, pyStrip c = c) ∧
    (∀ i, (pySlice text (i * (C - O)) C).length = min C (text.length - i * (C - O))) := by
  refine ⟨chunk_text_eq text C O h, ?_, ?_⟩
  · intro c hc
    rw [chunk_text_eq] at hc
    obtain ⟨i, _, hi⟩ := List.mem_map.mp hc
    rw [← hi]
    exact pyStrip_idem _
  · intro i
    simp [pySlice]

/-- Witness for `chunk_text_window_spec` on a concrete text. -/
theorem chunk_text_window_spec_witness :
    chunk_text "ab".toList 2 1 (by decide) =
      (List.range (ceilDivNat "ab".toList.length (2 - 1))).map
        (fun i => pyStrip (pySlice "ab".toList (i * (2 - 1)) 2)) ∧
    (pySlice "ab".toList (1 * (2 - 1)) 2).length = min 2 ("ab".toList.length - 1 * (2 - 1)) :=
  ⟨(chunk_text_window_spec "ab".toList 2 1 (by decide)).1,
   (chunk_text_window_spec "ab".toList 2 1 (by decide)).2.2 1⟩

/-! ### Claim C1 — re-ingestion -/

/-- C1 counterexample: re-ingesting the same one-page document (same
filename, same bytes) doubles the stored chunk count — `self.chunks.extend`
appends the records again, so the index store's content is not unchanged. -/
theorem process_document_duplicates_chunks_counterexample :
    ((process_document (fun _ : Unit => ["hello".toList]) (fun s => s)
        ⟨[], [], []⟩ "a".toList ()).1.chunks).length = 1 ∧
    ((process_document (fun _ : Unit => ["hello".toList]) (fun s => s)
        (process_document (fun _ : Unit => ["hello".toList]) (fun s => s)
          ⟨[], [], []⟩ "a".toList ()).1 "a".toList ()).1.chunks).length = 2 := by
  have hchunk : chunk_text "hello".toList 1000 200 (by decide) = ["hello".toList] := by
    rw [chunk_text_eq]
    decide
  have h2 : pageChunks "a".toList "a".toList 1 "hello".toList =
      [⟨"a".toList ++ "_page".toList ++ natStr 1 ++ "_chunk".toList ++ natStr 0,
        "a".toList, "a".toList, 1, 0, "hello".toList⟩] := by
    unfold pageChunks
    rw [if_neg (by decide : ¬ (pyStrip "hello".toList = ([] : Str))), hchunk]
    rfl
  have h3 : extract_and_chunk_pdf ["hello".toList] "a".toList "a".toList =
      pageChunks "a".toList "a".toList 1 "hello".toList ++ [] := by
    rfl
  refine ⟨?_, ?_⟩ <;>
    · simp only [process_document]
      rw [h3, h2]
      simp

/-- C1 (amended): re-ingesting the same document produces the same ingest
result (same document id and chunk count, hence the same chunk ids), and
overwrites the `documents` and `documents_metadata` entries in place, but
appends the same chunk records to `self.chunks` a second time, so the total
chunk count grows by the document's chunk count instead of staying equal. -/
theorem process_document_reingest {β : Type _} (extractPages : β → List Str)
    (md5hex : Str → Str) (st : DPState) (fname : Str) (file : β) :
    (process_document extractPages md5hex
        (process_document extractPages md5hex st fname file).1 fname file).2 =
      (process_document extractPages md5hex st fname file).2 ∧
    (process_document extractPages md5hex
        (process_document extractPages md5hex st fname file).1 fname file).1.documents =
      (process_document extractPages md5hex st fname file).1.documents ∧
    (process_document extractPages md5hex
        (process_document extractPages md5hex st fname file).1 fname file).1.documents_metadata =
      (process_document extractPages md5hex st fname file).1.documents_metadata ∧
    (process_document extractPages md5hex
        (process_document extractPages md5hex st fname file).1 fname file).1.chunks =
      (process_document extractPages md5hex st fname file).1.chunks ++
        extract_and_chunk_pdf (extractPages file) (md5hex fname) fname ∧
    ((process_document extractPages md5hex
        (process_document extractPages md5hex st fname file).1 fname file).1.chunks).length =
      ((process_document extractPages md5hex st fname file).1.chunks).length +
        (process_document extractPages md5hex st fname file).2.chunks_count := by
  refine ⟨rfl, ?_, ?_, rfl, ?_⟩
  · simp [process_document, dictSet_dictSet]
  · simp [process_document, dictSet_dictSet]
  · simp [process_document]
    omega

/-! ### Claim C3 — cache TTL semantics -/

/-- C3 (confirmed): a lookup hits iff the fingerprint is present and
`now − created_at < TTL`; a `put` followed immediately by a `get` with the
same fingerprint returns the stored entry; a `get` after `put` hits exactly
when the age is below the TTL (so once the TTL has elapsed it misses); the
read path returns the cache unchanged (no eviction on read); and after
`clear` every `get` misses. -/
theorem cache_ttl_spec (cache : List (Str × CacheEntry)) (k : Str) (e : CacheEntry)
    (now : Int) :
    (query_cache_get cache k now = some e ↔
      dictGet cache k = some e ∧ now - e.timestamp < CACHE_TTL_SECONDS) ∧
    query_cache_get (query_cache_put cache k e) k e.timestamp = some e ∧
    query_cache_get (query_cache_put cache k e) k now =
      (if now - e.timestamp < CACHE_TTL_SECONDS then some e else none) ∧
    (chat_cache_lookup cache k now).2 = cache ∧
    query_cache_get (query_cache_clear cache) k now = none := by
  refine ⟨?_, ?_, ?_, rfl, rfl⟩
  · unfold query_cache_get is_cache_valid
    cases h : dictGet cache k with
    | none => simp
    | some e' =>
        constructor
        · intro hget
          by_cases hv : now - e'.timestamp < CACHE_TTL_SECONDS
          · simp [hv] at hget
            subst hget
            exact ⟨rfl, hv⟩
          · simp [hv] at hget
        · rintro ⟨he, hv⟩
          cases he
          simp [hv]
  · unfold query_cache_get query_cache_put is_cache_valid
    rw [dictGet_dictSet]
    simp [CACHE_TTL_SECONDS]
  · unfold query_cache_get query_cache_put is_cache_valid
    rw [dictGet_dictSet]
    by_cases hv : now - e.timestamp < CACHE_TTL_SECONDS <;> simp [hv]

/-! ### Claim C9 — fingerprint normalization -/

theorem strLeB_total : ∀ a b : Str, (strLeB a b || strLeB b a) = true
  | [], b => by simp [strLeB]
  | a :: as, [] => by simp [strLeB]
  | x :: xs, y :: ys => by
      rcases lt_trichotomy x y with h | h | h
      · simp [strLeB, h]
      · subst h
        simp [strLeB, lt_irrefl]
        simpa using strLeB_total xs ys
      · simp [strLeB, h, asymm h]

theorem strLeB_trans : ∀ a b c : Str,
    strLeB a b = true → strLeB b c = true → strLeB a c = true
  | [], _, _ => by intro _ _; simp [strLeB]
  | x :: xs, [], c => by intro h1 _; simp [strLeB] at h1
  | x :: xs, y :: ys, [] => by intro _ h2; simp [strLeB] at h2
  | x :: xs, y :: ys, z :: zs => by
      intro h1 h2
      rcases lt_trichotomy x y with hxy | hxy | hxy
      · rcases lt_trichotomy y z with hyz | hyz | hyz
        · simp [strLeB, lt_trans hxy hyz]
        · subst hyz
          simp [strLeB, hxy]
        · simp [strLeB, asymm hyz, hyz] at h2
      · subst hxy
        rcases lt_trichotomy x z with hxz | hxz | hxz
        · simp [strLeB, hxz]
        · subst hxz
          simp [strLeB, lt_irrefl] at h1 h2 ⊢
          exact strLeB_trans xs ys zs h1 h2
        · simp [strLeB, asymm hxz, hxz] at h2
      · simp [strLeB, asymm hxy, hxy] at h1

theorem strLeB_antisymm : ∀ a b : Str,
    strLeB a b = true → strLeB b a = true → a = b
  | [], [] => by intro _ _; rfl
  | [], b :: bs => by intro _ h2; simp [strLeB] at h2
  | a :: as, [] => by intro h1 _; simp [strLeB] at h1
  | x :: xs, y :: ys => by
      intro h1 h2
      rcases lt_trichotomy x y with h | h | h
      · simp [strLeB, asymm h, h] at h2
      · subst h
        simp [strLeB, lt_irrefl] at h1 h2
        rw [strLeB_antisymm xs ys h1 h2]
      · simp [strLeB, asymm h, h] at h1

/-- Sorting by key is invariant under permutation of the items when the keys
are distinct (a dict has distinct keys), so `sort_keys=True` canonicalizes
key order. -/
theorem sortFilterItems_perm_eq (f1 f2 : List (Str × JVal)) (hp : f1.Perm f2)
    (hn : (f1.map Prod.fst).Nodup) : sortFilterItems f1 = sortFilterItems f2 := by
  have htrans : ∀ (a b c : Str × JVal),
      strLeB a.1 b.1 → strLeB b.1 c.1 → strLeB a.1 c.1 :=
    fun a b c h1 h2 => strLeB_trans _ _ _ h1 h2
  have htotal : ∀ (a b : Str × JVal), (strLeB a.1 b.1 || strLeB b.1 a.1) = true :=
    fun a b => strLeB_total _ _
  have hperm1 : List.Perm (sortFilterItems f1) f1 := List.mergeSort_perm f1 _
  have hperm2 : List.Perm (sortFilterItems f2) f2 := List.mergeSort_perm f2 _
  have hn2 : (f2.map Prod.fst).Nodup := ((hp.map Prod.fst).nodup_iff).mp hn
  have hstrict : ∀ (f : List (Str × JVal)), (f.map Prod.fst).Nodup →
      (sortFilterItems f).Pairwise
        (fun a b : Str × JVal => strLeB a.1 b.1 = true ∧ a.1 ≠ b.1) := by
    intro f hnd
    have hsorted : (sortFilterItems f).Pairwise
        (fun a b : Str × JVal => strLeB a.1 b.1 = true) :=
      List.sorted_mergeSort htrans htotal f
    have hndsort : ((sortFilterItems f).map Prod.fst).Nodup :=
      (((List.mergeSort_perm f _).map Prod.fst).nodup_iff).mpr hnd
    have hne : (sortFilterItems f).Pairwise (fun a b : Str × JVal => a.1 ≠ b.1) :=
      List.pairwise_map.mp hndsort
    exact hsorted.and hne
  haveI : IsAntisymm (Str × JVal)
      (fun a b : Str × JVal => strLeB a.1 b.1 = true ∧ a.1 ≠ b.1) :=
    ⟨fun a b h1 h2 => absurd (strLeB_antisymm _ _ h1.1 h2.1) h1.2⟩
  exact List.eq_of_perm_of_sorted (hperm1.trans (hp.trans hperm2.symm))
    (hstrict f1 hn) (hstrict f2 hn2)

/-- `Char.toLower` fixes whitespace characters. -/
theorem toLower_of_space (c : Char) (h : pyIsSpace c = true) : Char.toLower c = c := by
  by_cases h1 : c = ' '
  · subst h1; decide
  by_cases h2 : c = '\t'
  · subst h2; decide
  by_cases h3 : c = '\n'
  · subst h3; decide
  by_cases h4 : c = '\r'
  · subst h4; decide
  by_cases h5 : c = '\x0b'
  · subst h5; decide
  by_cases h6 : c = '\x0c'
  · subst h6; decide
  simp [pyIsSpace, h1, h2, h3, h4, h5, h6] at h

/-- C9 (confirmed): the fingerprint is invariant under letter case of the
query, leading/trailing whitespace of the query, and key order of the filter
dict; and it always has the fixed length of an md5 hex digest (32), given
that the external `md5hex` always returns strings of that length. -/
theorem get_query_hash_spec (md5hex : Str → Str)
    (hlen : ∀ s, (md5hex s).length = 32) :
    (∀ q1 q2 fs, lowerStr q1 = lowerStr q2 →
        get_query_hash md5hex q1 fs = get_query_hash md5hex q2 fs) ∧
    (∀ q fs w1 w2, (∀ c ∈ w1, pyIsSpace c = true) → (∀ c ∈ w2, pyIsSpace c = true) →
        get_query_hash md5hex (w1 ++ q ++ w2) fs = get_query_hash md5hex q fs) ∧
    (∀ q f1 f2, f1.Perm f2 → (f1.map Prod.fst).Nodup →
        get_query_hash md5hex q (some f1) = get_query_hash md5hex q (some f2)) ∧
    (∀ q fs, (get_query_hash md5hex q fs).length = 32) := by
  refine ⟨?_, ?_, ?_, ?_⟩
  · intro q1 q2 fs h
    unfold get_query_hash
    rw [h]
  · intro q fs w1 w2 h1 h2
    unfold get_query_hash
    have hl : lowerStr (w1 ++ q ++ w2) = lowerStr w1 ++ lowerStr q ++ lowerStr w2 := by
      simp [lowerStr]
    have hw1 : ∀ c ∈ lowerStr w1, pyIsSpace c = true := by
      intro c hc
      obtain ⟨d, hd, hdc⟩ := List.mem_map.mp hc
      rw [← hdc, toLower_of_space d (h1 d hd)]
      exact h1 d hd
    have hw2 : ∀ c ∈ lowerStr w2, pyIsSpace c = true := by
      intro c hc
      obtain ⟨d, hd, hdc⟩ := List.mem_map.mp hc
      rw [← hdc, toLower_of_space d (h2 d hd)]
      exact h2 d hd
    rw [hl, pyStrip_pad _ _ _ hw1 hw2]
  · intro q f1 f2 hp hn
    unfold get_query_hash
    by_cases h1 : f1 = []
    · subst h1
      have h2 : f2 = [] := hp.symm.eq_nil
      subst h2
      rfl
    · have h2 : f2 ≠ [] := by
        intro h2
        subst h2
        exact h1 (List.Perm.eq_nil hp)
      have hd : dumpFilters f1 = dumpFilters f2 := by
        unfold dumpFilters
        rw [sortFilterItems_perm_eq f1 f2 hp hn]
      show md5hex (if f1 = [] then pyStrip (lowerStr q)
              else pyStrip (lowerStr q) ++ dumpFilters f1) =
           md5hex (if f2 = [] then pyStrip (lowerStr q)
              else pyStrip (lowerStr q) ++ dumpFilters f2)
      rw [if_neg h1, if_neg h2, hd]
  · intro q fs
    unfold get_query_hash
    exact hlen _

/-- Witness for `get_query_hash_spec` with a concrete fixed-length hash. -/
theorem get_query_hash_spec_witness :
    (get_query_hash (fun _ => List.replicate 32 '0') "A ".toList none).length = 32 :=
  (get_query_hash_spec (fun _ => List.replicate 32 '0') (fun _ => by simp)).2.2.2
    "A ".toList none

/-! ### Claims C6 and C7 — search ranking -/

theorem scoreLe_trans : ∀ (a b c : SChunk × Nat),
    decide (b.2 ≤ a.2) = true → decide (c.2 ≤ b.2) = true → decide (c.2 ≤ a.2) = true := by
  intro a b c h1 h2
  simp only [decide_eq_true_eq] at h1 h2 ⊢
  omega

theorem scoreLe_total : ∀ (a b : SChunk × Nat),
    (decide (b.2 ≤ a.2) || decide (a.2 ≤ b.2)) = true := by
  intro a b
  simp only [Bool.or_eq_true, decide_eq_true_eq]
  omega

/-- Stability of the sort against the candidate order: for each score, the
candidates with that score appear in the sorted output in their original
(store insertion) order. -/
theorem mergeSort_score_filter (cands : List (SChunk × Nat)) (s : Nat) :
    (List.mergeSort cands (fun a b => decide (b.2 ≤ a.2))).filter (fun r => r.2 == s) =
      cands.filter (fun r => r.2 == s) := by
  have h1 : List.Sublist (cands.filter (fun r => r.2 == s)) cands := List.filter_sublist _
  have hpw : (cands.filter (fun r => r.2 == s)).Pairwise
      (fun a b : SChunk × Nat => decide (b.2 ≤ a.2) = true) := by
    apply List.pairwise_of_forall_mem_list
    intro a ha b hb
    have ha2 : a.2 = s := by simpa using (List.mem_filter.mp ha).2
    have hb2 : b.2 = s := by simpa using (List.mem_filter.mp hb).2
    simp [ha2, hb2]
  have h2 := List.sublist_mergeSort scoreLe_trans scoreLe_total hpw h1
  have h3 := h2.filter (fun r => r.2 == s)
  have h4 : (cands.filter (fun r => r.2 == s)).filter (fun r => r.2 == s) =
      cands.filter (fun r => r.2 == s) := by
    simp [List.filter_filter]
  rw [h4] at h3
  have h5 : ((List.mergeSort cands (fun a b => decide (b.2 ≤ a.2))).filter
      (fun r => r.2 == s)).length = (cands.filter (fun r => r.2 == s)).length :=
    ((List.mergeSort_perm cands _).filter _).length_eq
  exact (h3.eq_of_length h5.symm).symm

/-- C6 (confirmed): the returned ranking is sorted in descending score
order; equal-score results keep the candidate (store insertion) order, i.e.
Python's stable sort; and identical query, index state and `top_k` give the
identical ranked list. -/
theorem search_documents_ranking_spec (chunks : List SChunk) (query : Str) (top_k : Nat) :
    List.Pairwise (fun a b : SChunk × Nat => b.2 ≤ a.2)
      (search_documents chunks query top_k) ∧
    (∀ s : Nat,
      (List.mergeSort (search_candidates chunks query)
          (fun a b => decide (b.2 ≤ a.2))).filter (fun r => r.2 == s) =
        (search_candidates chunks query).filter (fun r => r.2 == s)) ∧
    (∀ chunks2 query2 k2, chunks = chunks2 → query = query2 → top_k = k2 →
      search_documents chunks query top_k = search_documents chunks2 query2 k2) := by
  refine ⟨?_, fun s => mergeSort_score_filter _ s, ?_⟩
  · have hs : (List.mergeSort (search_candidates chunks query)
        (fun a b => decide (b.2 ≤ a.2))).Pairwise
        (fun a b : SChunk × Nat => decide (b.2 ≤ a.2) = true) :=
      List.sorted_mergeSort scoreLe_trans scoreLe_total _
    have ht : List.Sublist (search_documents chunks query top_k)
        (List.mergeSort (search_candidates chunks query) (fun a b => decide (b.2 ≤ a.2))) :=
      List.take_sublist _ _
    exact (List.Pairwise.sublist ht hs).imp (fun h => of_decide_eq_true h)
  · intro chunks2 query2 k2 h1 h2 h3
    rw [h1, h2, h3]

/-- Witness for `search_documents_ranking_spec`. -/
theorem search_documents_ranking_spec_witness :
    search_documents [] "q".toList 5 = search_documents [] "q".toList 5 :=
  (search_documents_ranking_spec [] "q".toList 5).2.2 [] "q".toList 5 rfl rfl rfl

/-- C7 (confirmed): the result list has at most `top_k` entries, and every
returned chunk has a strictly positive score, which requires at least one
query word to occur as a substring of the chunk's lower-cased content —
zero-overlap chunks are excluded entirely by the `if score > 0` guard. -/
theorem search_documents_positive_spec (chunks : List SChunk) (query : Str) (top_k : Nat) :
    (search_documents chunks query top_k).length ≤ top_k ∧
    ∀ r ∈ search_documents chunks query top_k,
      0 < r.2 ∧ ∃ w ∈ pyWords (lowerStr query), isSubstr w (lowerStr r.1.content) = true := by
  constructor
  · unfold search_documents
    simpa using List.length_take_le _ _
  · intro r hr
    unfold search_documents at hr
    have hr1 := List.mem_of_mem_take hr
    have hr2 : r ∈ search_candidates chunks query := List.mem_mergeSort.mp hr1
    unfold search_candidates at hr2
    obtain ⟨c, _, hcr⟩ := List.mem_filterMap.mp hr2
    by_cases hpos : 0 < chunkScore (pyWords (lowerStr query)) (lowerStr c.content)
    · rw [if_pos hpos] at hcr
      cases hcr
      refine ⟨hpos, ?_⟩
      by_contra hno
      push_neg at hno
      have hz : chunkScore (pyWords (lowerStr query)) (lowerStr c.content) = 0 := by
        unfold chunkScore
        apply List.sum_eq_zero
        intro x hx
        obtain ⟨w, hw, hwx⟩ := List.mem_map.mp hx
        rw [← hwx, if_neg (by simpa using hno w hw)]
      omega
    · rw [if_neg hpos] at hcr
      simp at hcr

/-- Witness for `search_documents_positive_spec` on a one-chunk store. -/
theorem search_documents_positive_spec_witness :
    (search_documents [⟨"i".toList, "d".toList, "f".toList, 1, 0, "hello".toList⟩]
        "hello".toList 5).length ≤ 5 ∧
    (0 < ((⟨"i".toList, "d".toList, "f".toList, 1, 0, "hello".toList⟩ : SChunk), 1).2 ∧
      ∃ w ∈ pyWords (lowerStr "hello".toList),
        isSubstr w
          (lowerStr ((⟨"i".toList, "d".toList, "f".toList, 1, 0,
            "hello".toList⟩ : SChunk), 1).1.content) = true) := by
  have hc : search_candidates
      [⟨"i".toList, "d".toList, "f".toList, 1, 0, "hello".toList⟩] "hello".toList =
      [(⟨"i".toList, "d".toList, "f".toList, 1, 0, "hello".toList⟩, 1)] := by
    decide
  have hsd : search_documents
      [⟨"i".toList, "d".toList, "f".toList, 1, 0, "hello".toList⟩] "hello".toList 5 =
      [(⟨"i".toList, "d".toList, "f".toList, 1, 0, "hello".toList⟩, 1)] := by
    unfold search_documents
    rw [hc, List.mergeSort_singleton]
    rfl
  refine ⟨(search_documents_positive_spec _ _ _).1,
    (search_documents_positive_spec
      [⟨"i".toList, "d".toList, "f".toList, 1, 0, "hello".toList⟩] "hello".toList 5).2
      (⟨"i".toList, "d".toList, "f".toList, 1, 0, "hello".toList⟩, 1) ?_⟩
  rw [hsd]
  simp

/-! ### Claim C2 — zero retrieved matches -/

/-- C2 (confirmed): when the query is not an extraction request and
retrieval returns no documents, `process_query` returns the fixed
"couldn't find any relevant information" answer with an empty source list
and no confidence value — no sources are fabricated. -/
theorem process_query_no_grounding (retrieve : Str → List RDoc)
    (generate : Str → Str → List Turn → Str) (handleExtraction : Str → Str → QueryResult)
    (freshId : Str) (st : List (Str × List Turn)) (query : Str)
    (conversation_id : Option Str)
    (hex : is_extraction_request query = false)
    (hret : retrieve query = []) :
    ∃ cid st1,
      process_query retrieve generate handleExtraction freshId st query conversation_id =
        .ok ({ answer := no_relevant_info_msg, sources := [], conversation_id := cid,
               confidence := none, structured_data := none }, st1) := by
  unfold process_query
  rcases conversation_id with _ | c
  · exact ⟨freshId, dictSet st freshId [], by simp [hex, hret]⟩
  · by_cases hc : c = []
    · exact ⟨freshId, dictSet st freshId [], by simp [hex, hret, hc]⟩
    · exact ⟨c, st, by simp [hex, hret, hc]⟩

/-- Witness for `process_query_no_grounding` with empty retrieval. -/
theorem process_query_no_grounding_witness :
    ∃ cid st1,
      process_query (fun _ => []) (fun _ _ _ => []) (fun _ _ => ⟨[], [], [], none, none⟩)
        "u".toList [] "hi".toList none =
        .ok ({ answer := no_relevant_info_msg, sources := [], conversation_id := cid,
               confidence := none, structured_data := none }, st1) :=
  process_query_no_grounding _ _ _ _ _ _ _ (by decide) rfl

/-! ### Claim C5 — conversation creation -/

/-- C5 (code bug): supplying a conversation id that was never seen before
makes `process_query` raise `KeyError` at
`self.conversations[conversation_id].append(...)` — the conversation is not
created on append, contrary to the spec; a fresh id (with creation) happens
only when the caller supplies a falsy id. -/
theorem process_query_keyerror_on_unseen_id :
    process_query (fun _ => [⟨"t".toList, "f".toList, 1⟩]) (fun _ _ _ => "ans".toList)
      (fun _ _ => ⟨[], [], [], none, none⟩) "fresh".toList [] "hello".toList
      (some "abc".toList) = .error (.keyError "abc".toList) := by
  rfl

/-! ### Claim C8 — structured extraction parsing -/

theorem firstFromBracket_head : ∀ (l : Str) (suf : Str),
    firstFromBracket l = some suf → ∃ rest, suf = '[' :: rest := by
  intro l
  induction l with
  | nil => intro suf h; simp [firstFromBracket] at h
  | cons c t ih =>
      intro suf h
      by_cases hc : c = '['
      · subst hc
        simp [firstFromBracket] at h
        exact ⟨t, h.symm⟩
      · simp [firstFromBracket, hc] at h
        exact ih suf h

theorem recoverArray_head (l sub : Str) (h : recoverArray l = some sub) :
    ∃ rest, sub = '[' :: rest := by
  unfold recoverArray at h
  cases hf : firstFromBracket l with
  | none => rw [hf] at h; simp at h
  | some suf =>
      rw [hf] at h
      obtain ⟨rest, hsuf⟩ := firstFromBracket_head l suf hf
      by_cases ht : truncAtLastClose suf = []
      · simp [ht] at h
      · simp [ht] at h
        subst hsuf
        obtain ⟨w, hw⟩ :=
          List.dropWhile_suffix (l := (('[' : Char) :: rest).reverse) (fun c => !(c = ']'))
        have hsplit : ('[' : Char) :: rest = sub ++ w.reverse := by
          have h2 := congrArg List.reverse hw
          rw [List.reverse_append, List.reverse_reverse] at h2
          rw [← h2, ← h]
          unfold truncAtLastClose
          rfl
        cases hs : sub with
        | nil =>
            rw [hs] at h
            exact absurd h ht
        | cons a t' =>
            rw [hs] at hsplit
            have ha : a = '[' := by
              have := List.cons.injEq '[' rest a (t' ++ w.reverse) ▸ hsplit
              simp at hsplit
              exact hsplit.1.symm
            exact ⟨t', by rw [ha]⟩

/-- C8 (confirmed): given a `json.loads` that only parses strings starting
with `'['` to arrays (as real JSON parsing does), `_extract_with_gpt` is
total and always returns a list: a direct parse to an array is returned
as-is; an object is searched for a known list-valued key; when the direct
parse fails, the bracketed substring is tried, and every remaining failure
(no bracketed substring, or an unparseable recovered substring) yields the
empty list instead of an exception. -/
theorem extract_with_gpt_spec (loads : Str → Option PJson)
    (hw : ∀ s j, loads s = some j → (∃ r, s = '[' :: r) → ∃ l, j = PJson.arr l) :
    ∀ text,
      (∃ l, extract_with_gpt loads text = .arr l) ∧
      (∀ l, loads text = some (.arr l) → extract_with_gpt loads text = .arr l) ∧
      (loads text = none → recoverArray text = none →
        extract_with_gpt loads text = .arr []) ∧
      (∀ sub, loads text = none → recoverArray text = some sub → loads sub = none →
        extract_with_gpt loads text = .arr []) ∧
      (∀ sub l, loads text = none → recoverArray text = some sub →
        loads sub = some (.arr l) → extract_with_gpt loads text = .arr l) := by
  intro text
  refine ⟨?_, ?_, ?_, ?_, ?_⟩
  · unfold extract_with_gpt extract_with_gpt_body
    cases hl : loads text with
    | some j =>
        cases j with
        | arr l => exact ⟨l, rfl⟩
        | obj kvs => exact ⟨firstListKey kvs extraction_keys, rfl⟩
        | str s =>
            cases hk : extraction_keys.any (fun k => isSubstr k s) with
            | true =>
                have hp : parse_direct (.str s) = .error () := by
                  show (if extraction_keys.any (fun k => isSubstr k s) = true then
                      (Except.error () : Except Unit PJson) else .ok (.arr [])) = .error ()
                  rw [if_pos hk]
                show ∃ l, (match parse_direct (PJson.str s) with
                  | Except.ok v => v
                  | Except.error _ => PJson.arr []) = PJson.arr l
                rw [hp]
                exact ⟨[], rfl⟩
            | false =>
                have hp : parse_direct (.str s) = .ok (.arr []) := by
                  show (if extraction_keys.any (fun k => isSubstr k s) = true then
                      (Except.error () : Except Unit PJson) else .ok (.arr [])) = .ok (.arr [])
                  rw [if_neg (by simp [hk])]
                show ∃ l, (match parse_direct (PJson.str s) with
                  | Except.ok v => v
                  | Except.error _ => PJson.arr []) = PJson.arr l
                rw [hp]
                exact ⟨[], rfl⟩
        | num n => exact ⟨[], rfl⟩
        | bool b => exact ⟨[], rfl⟩
        | null => exact ⟨[], rfl⟩
    | none =>
        cases hr : recoverArray text with
        | none =>
            have hb : recover_parse loads text = .ok (.arr []) := by
              unfold recover_parse
              rw [hr]
            rw [hb]
            exact ⟨[], rfl⟩
        | some sub =>
            have hb : recover_parse loads text = okOrErr (loads sub) := by
              unfold recover_parse
              rw [hr]
            rw [hb]
            cases hls : loads sub with
            | none => exact ⟨[], rfl⟩
            | some j =>
                obtain ⟨r, hr2⟩ := recoverArray_head text sub hr
                obtain ⟨l, hl2⟩ := hw sub j hls ⟨r, hr2⟩
                subst hl2
                exact ⟨l, rfl⟩
  · intro l hl
    unfold extract_with_gpt extract_with_gpt_body
    rw [hl]
    rfl
  · intro h1 h2
    unfold extract_with_gpt extract_with_gpt_body
    rw [h1]
    show (match recover_parse loads text with
      | Except.ok v => v
      | Except.error _ => PJson.arr []) = PJson.arr []
    unfold recover_parse
    rw [h2]
  · intro sub h1 h2 h3
    unfold extract_with_gpt extract_with_gpt_body
    rw [h1]
    show (match recover_parse loads text with
      | Except.ok v => v
      | Except.error _ => PJson.arr []) = PJson.arr []
    unfold recover_parse
    rw [h2]
    show (match okOrErr (loads sub) with
      | Except.ok v => v
      | Except.error _ => PJson.arr []) = PJson.arr []
    rw [h3]
    rfl
  · intro sub l h1 h2 h3
    unfold extract_with_gpt extract_with_gpt_body
    rw [h1]
    show (match recover_parse loads text with
      | Except.ok v => v
      | Except.error _ => PJson.arr []) = PJson.arr l
    unfold recover_parse
    rw [h2]
    show (match okOrErr (loads sub) with
      | Except.ok v => v
      | Except.error _ => PJson.arr []) = PJson.arr l
    rw [h3]
    rfl

/-- Witness for `extract_with_gpt_spec` with a parser that always fails and
a response with no bracketed substring. -/
theorem extract_with_gpt_spec_witness :
    extract_with_gpt (fun _ => none) "abc".toList = PJson.arr [] :=
  ((extract_with_gpt_spec (fun _ => none) (fun _ _ h _ => nomatch h)) "abc".toList).2.2.1
    rfl rfl

/-- Witness for `cache_ttl_spec` at a concrete entry and clock. -/
theorem cache_ttl_spec_witness :
    query_cache_get (query_cache_put [] "k".toList ⟨[], [], none, none, 0⟩)
      "k".toList (⟨[], [], none, none, 0⟩ : CacheEntry).timestamp =
        some ⟨[], [], none, none, 0⟩ ∧
    query_cache_get (query_cache_clear []) "k".toList 0 = none :=
  ⟨(cache_ttl_spec [] "k".toList ⟨[], [], none, none, 0⟩ 0).2.1,
   (cache_ttl_spec [] "k".toList ⟨[], [], none, none, 0⟩ 0).2.2.2.2⟩
